import Mathlib

/-!
Shallow embedding of the code-reviewer gateway (guardrail pipeline,
rate limiter, result parser, review coordinator) from
`app/guardrails.py`, `app/api.py`, `app/utils.py`, `app/schemas.py` and
`app/crew/crew.py`, together with theorems settling the specification
claims about it.

Python strings are modelled as Lean `String` (a sequence of code points,
matching Python's `str`); Python floats that only ever carry clock
readings and scores are modelled as `ℚ`; Python `int` as `ℤ`/`ℕ`.
-/

/-! ## Python string primitives used by the source -/

/-- Characters for which Python's `str.strip()` removes an occurrence at
either end: the Unicode whitespace set used by `str.isspace`. -/
def pyIsSpace (c : Char) : Bool :=
  c.toNat ∈ [9, 10, 11, 12, 13, 28, 29, 30, 31, 32, 133, 160, 5760,
    8192, 8193, 8194, 8195, 8196, 8197, 8198, 8199, 8200, 8201, 8202,
    8232, 8233, 8239, 8287, 12288]

/-- Characters at which Python's `str.splitlines()` breaks a line
(a CRLF pair counts as a single break and is handled first). -/
def pyIsLineBreak (c : Char) : Bool :=
  c.toNat ∈ [10, 11, 12, 13, 28, 29, 30, 133, 8232, 8233]

/-- Python `str.strip()` on a character list: drop whitespace from both ends. -/
def pyStripChars (l : List Char) : List Char :=
  ((l.dropWhile pyIsSpace).reverse.dropWhile pyIsSpace).reverse

/-- Python `str.strip()`. -/
def pyStrip (s : String) : String :=
  String.mk (pyStripChars s.data)

/-- Python `str.lower()` (agrees with `Char.toLower` on the ASCII range,
which is all the source ever compares against). -/
def pyLower (s : String) : String :=
  String.mk (s.data.map Char.toLower)

/-- Python's `sub in s` substring test, as a proposition. -/
def pyContains (s sub : String) : Prop :=
  sub.data <:+: s.data

instance (s sub : String) : Decidable (pyContains s sub) :=
  inferInstanceAs (Decidable (sub.data <:+: s.data))

/-- Worker for `str.splitlines()`: `acc` is the current line, reversed. -/
def pySplitlinesAux : List Char → List Char → List (List Char)
  | [], [] => []
  | [], acc => [acc.reverse]
  | '\r' :: '\n' :: rest, acc => acc.reverse :: pySplitlinesAux rest []
  | c :: rest, acc =>
    if pyIsLineBreak c then acc.reverse :: pySplitlinesAux rest []
    else pySplitlinesAux rest (c :: acc)

/-- Python `str.splitlines()`. -/
def pySplitlines (s : String) : List String :=
  (pySplitlinesAux s.data []).map String.mk

/-! ## Data model (`app/schemas.py`) -/

/-- Embedding of `FindingCategory(str, Enum)` from `app/schemas.py`. -/
inductive FindingCategory
  | security
  | performance
  | style
  | logic
  | maintainability
  deriving DecidableEq, Repr

/-- The `.value` string of a `FindingCategory` member. -/
def FindingCategory.value : FindingCategory → String
  | .security => "security"
  | .performance => "performance"
  | .style => "style"
  | .logic => "logic"
  | .maintainability => "maintainability"

/-- Embedding of `FindingSeverity(str, Enum)` from `app/schemas.py`. -/
inductive FindingSeverity
  | low
  | medium
  | high
  | critical
  deriving DecidableEq, Repr

/-- The `.value` string of a `FindingSeverity` member. -/
def FindingSeverity.value : FindingSeverity → String
  | .low => "low"
  | .medium => "medium"
  | .high => "high"
  | .critical => "critical"

/-- The severity rank used by `MaxFindingsGuardrail.validate`:
`["low", "medium", "high", "critical"].index(f.severity.value)`. -/
def severityRank (s : FindingSeverity) : ℕ :=
  List.indexOf s.value ["low", "medium", "high", "critical"]

/-- Embedding of `ReviewFinding` from `app/schemas.py`. -/
structure ReviewFinding where
  category : FindingCategory
  severity : FindingSeverity
  file : String
  line : Option Int
  message : String
  suggestion : String
  deriving DecidableEq, Repr

/-- The invariant established by the pydantic `field_validator`
`validate_not_empty` on `ReviewFinding.message` / `.suggestion`
(`app/schemas.py`): the stored value is the stripped input and is
non-empty (construction raises otherwise). -/
def ReviewFinding.Valid (f : ReviewFinding) : Prop :=
  pyStrip f.message = f.message ∧ f.message ≠ "" ∧
    pyStrip f.suggestion = f.suggestion ∧ f.suggestion ≠ ""

instance (f : ReviewFinding) : Decidable f.Valid := by
  unfold ReviewFinding.Valid
  infer_instance

/-- Embedding of `ReviewMetadata` from `app/schemas.py`. -/
structure ReviewMetadata where
  execution_time_ms : Int
  tokens_used : Int
  agent_count : Int
  guardrails_applied : List String
  model : String
  deriving DecidableEq, Repr

/-- Embedding of `ReviewResponse` from `app/schemas.py`. -/
structure ReviewResponse where
  summary : String
  score : ℚ
  findings : List ReviewFinding
  metadata : ReviewMetadata
  deriving DecidableEq, Repr

/-- The `context` dict handed to guardrails by `review_code` in
`app/api.py`: it carries the sanitized diff and the language. -/
structure GuardrailContext where
  diff : String
  language : String
  deriving DecidableEq, Repr

/-! ## `extract_files_from_diff` (`app/utils.py`) -/

/-- The per-line capture of `extract_files_from_diff`: apply the three
anchored patterns `diff --git a/(.*?) b/`, `+++ b/(.*?)$`,
`--- a/(.*?)$` to the line.  At most one pattern can match a given line
(their literal prefixes differ), and the non-greedy group of the first
pattern is the text before the first occurrence of `" b/"` in the rest
of the line (`breakOnAux` returns exactly that prefix, or `none` when
the separator does not occur). -/
def breakOnAux (sep : List Char) : List Char → Option (List Char)
  | [] => none
  | c :: rest =>
    if sep.isPrefixOf (c :: rest) then some []
    else (breakOnAux sep rest).map (c :: ·)

def captureFromLine (line : String) : Option String :=
  if List.isPrefixOf "diff --git a/".data line.data then
    match breakOnAux " b/".data (line.data.drop 13) with
    | some p => some (String.mk p)
    | none => none
  else if List.isPrefixOf "+++ b/".data line.data then
    some (String.mk (line.data.drop 6))
  else if List.isPrefixOf "--- a/".data line.data then
    some (String.mk (line.data.drop 6))
  else none

/-- Insertion into a strictly sorted list of strings, keeping it strictly
sorted: this realises the `set()` plus final `sorted(...)` of
`extract_files_from_diff` incrementally. -/
def insertSortedFile (p : String) : List String → List String
  | [] => [p]
  | q :: qs =>
    if p = q then q :: qs
    else if p < q then p :: q :: qs
    else q :: insertSortedFile p qs

/-- Embedding of `extract_files_from_diff` from `app/utils.py`: collect the capture of
each line, skipping `"/dev/null"`, into a set, returned sorted.  The
set-then-sort of the source is realised by sorted insertion. -/
def extract_files_from_diff (diff : String) : List String :=
  (pySplitlines diff).foldl
    (fun acc line =>
      match captureFromLine line with
      | some p => if p = "/dev/null" then acc else insertSortedFile p acc
      | none => acc)
    []

/-! ## The five guardrails (`app/guardrails.py`)

Each `validate` in the source returns `(True, response, name)` with a
constant boolean and name; the embedding keeps just the updated
response. -/

/-- Appends a guardrail name to `metadata.guardrails_applied`. -/
def ReviewResponse.recordGuardrail (r : ReviewResponse) (name : String) : ReviewResponse :=
  { r with metadata :=
      { r.metadata with guardrails_applied := r.metadata.guardrails_applied ++ [name] } }

/-- The filter kept by `EmptyMessageGuardrail.validate`:
`f.message.strip() and f.suggestion.strip() and len(f.message) > 10 and
len(f.suggestion) > 10`. -/
def emptyMessageKeep (f : ReviewFinding) : Bool :=
  decide (pyStrip f.message ≠ "" ∧ pyStrip f.suggestion ≠ "" ∧
    10 < f.message.length ∧ 10 < f.suggestion.length)

/-- Embedding of `EmptyMessageGuardrail.validate` from `app/guardrails.py`:
`removed = original_count - len(kept)` is positive iff the name is
recorded. -/
def EmptyMessageGuardrail.validate (r : ReviewResponse) : ReviewResponse :=
  if 0 < r.findings.length - (r.findings.filter emptyMessageKeep).length then
    ReviewResponse.recordGuardrail
      { r with findings := r.findings.filter emptyMessageKeep } "empty_message"
  else
    { r with findings := r.findings.filter emptyMessageKeep }

/-- The duplicate fingerprint of `DuplicateDetectionGuardrail.validate`:
`(f.file, f.line, f.category.value, f.message[:50].lower().strip())`. -/
def fingerprintOf (f : ReviewFinding) : String × Option Int × String × String :=
  (f.file, f.line, f.category.value,
    pyStrip (pyLower (String.mk (f.message.data.take 50))))

/-- The `seen`-set loop of `DuplicateDetectionGuardrail.validate`:
keep a finding iff its fingerprint has not been seen, then record it. -/
def dedupGo (seen : List (String × Option Int × String × String)) :
    List ReviewFinding → List ReviewFinding
  | [] => []
  | f :: rest =>
    if fingerprintOf f ∈ seen then dedupGo seen rest
    else f :: dedupGo (fingerprintOf f :: seen) rest

/-- Embedding of `DuplicateDetectionGuardrail.validate` from `app/guardrails.py`.
Note the source reassigns `response.findings` only when `removed > 0`. -/
def DuplicateDetectionGuardrail.validate (r : ReviewResponse) : ReviewResponse :=
  if 0 < r.findings.length - (dedupGo [] r.findings).length then
    ReviewResponse.recordGuardrail
      { r with findings := dedupGo [] r.findings } "duplicate_detection"
  else
    r

/-- The filter kept by `FileNameValidationGuardrail.validate`:
`f.file in valid_files or f.file == "unknown"`. -/
def fileNameKeep (valid_files : List String) (f : ReviewFinding) : Bool :=
  decide (f.file ∈ valid_files ∨ f.file = "unknown")

/-- Embedding of `FileNameValidationGuardrail.validate` from `app/guardrails.py`:
skip entirely when no files can be extracted from the diff. -/
def FileNameValidationGuardrail.validate (r : ReviewResponse) (ctx : GuardrailContext) :
    ReviewResponse :=
  if extract_files_from_diff ctx.diff = [] then r
  else if 0 < r.findings.length -
      (r.findings.filter (fileNameKeep (extract_files_from_diff ctx.diff))).length then
    ReviewResponse.recordGuardrail
      { r with findings := r.findings.filter (fileNameKeep (extract_files_from_diff ctx.diff)) }
      "file_validation"
  else
    { r with findings := r.findings.filter (fileNameKeep (extract_files_from_diff ctx.diff)) }

/-- The `serious_keywords` list of `SeverityValidationGuardrail.validate`. -/
def serious_keywords : List String :=
  ["injection", "xss", "sql", "authentication", "authorization",
   "credential", "password", "secret", "token"]

/-- The upgrade condition of `SeverityValidationGuardrail.validate`:
`f.category.value == "security" and f.severity == FindingSeverity.LOW`
and some serious keyword occurs in the lowercased message. -/
def upgradeCond (f : ReviewFinding) : Bool :=
  decide (f.category.value = "security") &&
    decide (f.severity = FindingSeverity.low) &&
    serious_keywords.any (fun k => decide (pyContains (pyLower f.message) k))

/-- The per-finding effect of `SeverityValidationGuardrail.validate`:
upgrade the severity to MEDIUM in place when the condition holds. -/
def upgradeFinding (f : ReviewFinding) : ReviewFinding :=
  if upgradeCond f then { f with severity := FindingSeverity.medium } else f

/-- Embedding of `SeverityValidationGuardrail.validate` from `app/guardrails.py`:
`modified` is set iff some finding satisfies the upgrade condition. -/
def SeverityValidationGuardrail.validate (r : ReviewResponse) : ReviewResponse :=
  if r.findings.any upgradeCond then
    ReviewResponse.recordGuardrail { r with findings := r.findings.map upgradeFinding }
      "severity_validation"
  else
    { r with findings := r.findings.map upgradeFinding }

/-- The sort key of `MaxFindingsGuardrail.validate`:
`(["low","medium","high","critical"].index(f.severity.value), f.category.value)`. -/
def maxFindingsKey (f : ReviewFinding) : ℕ × String :=
  (severityRank f.severity, f.category.value)

/-- Lexicographic strict order on the sort key, exactly Python's tuple
comparison (second component compared by code points). -/
def keyLt (a b : ℕ × String) : Prop :=
  a.1 < b.1 ∨ (a.1 = b.1 ∧ a.2 < b.2)

instance (a b : ℕ × String) : Decidable (keyLt a b) := by
  unfold keyLt; infer_instance

/-- Stable descending insertion by `maxFindingsKey`: a later element goes
after every earlier element whose key is not strictly smaller.  This is
extensionally the order produced by Python's stable
`sorted(..., reverse=True)`. -/
def insertDesc (x : ReviewFinding) : List ReviewFinding → List ReviewFinding
  | [] => [x]
  | y :: ys =>
    if keyLt (maxFindingsKey y) (maxFindingsKey x) then x :: y :: ys
    else y :: insertDesc x ys

/-- Embedding of `sorted(findings, key=..., reverse=True)` of
`MaxFindingsGuardrail.validate` as a stable descending insertion sort. -/
def sortDescFindings (l : List ReviewFinding) : List ReviewFinding :=
  l.foldl (fun acc x => insertDesc x acc) []

/-- Embedding of `MaxFindingsGuardrail.validate` from `app/guardrails.py`;
`max_findings` stands for `config.max_findings_per_review`. -/
def MaxFindingsGuardrail.validate (max_findings : ℕ) (r : ReviewResponse) : ReviewResponse :=
  if r.findings.length ≤ max_findings then r
  else
    ReviewResponse.recordGuardrail
      { r with findings := (sortDescFindings r.findings).take max_findings }
      "max_findings"

/-! ## Guardrail orchestrator (`GuardrailOrchestrator.apply`)

A validator call in the source either returns normally or raises.  The
orchestrator's `try` keeps the *same* response object bound on a raise,
so any in-place mutation the validator performed before raising
persists.  A validator is therefore modelled as returning either
`ok r'` (normal return value) or `exc rp` where `rp` is the state of the
passed-in response object at the moment the exception was raised. -/

inductive GuardrailOutcome
  | ok (r : ReviewResponse)
  | exc (r : ReviewResponse)
  deriving DecidableEq

/-- A guardrail as seen by the orchestrator loop. -/
def GuardrailFn : Type :=
  ReviewResponse → GuardrailContext → GuardrailOutcome

/-- A validator that cannot raise. -/
def liftGuardrail (f : ReviewResponse → GuardrailContext → ReviewResponse) : GuardrailFn :=
  fun r ctx => .ok (f r ctx)

/-- The loop of `GuardrailOrchestrator.apply`: on a normal return rebind
the response; on an exception continue with the object state at the
raise (`except ... # Continue with other guardrails`). -/
def GuardrailOrchestrator.applyList :
    List GuardrailFn → ReviewResponse → GuardrailContext → ReviewResponse
  | [], r, _ => r
  | v :: vs, r, ctx =>
    match v r ctx with
    | .ok r' => GuardrailOrchestrator.applyList vs r' ctx
    | .exc rp => GuardrailOrchestrator.applyList vs rp ctx

/-- The fixed validator sequence built in `GuardrailOrchestrator.__init__`. -/
def builtinGuardrails (max_findings : ℕ) : List GuardrailFn :=
  [liftGuardrail (fun r _ => EmptyMessageGuardrail.validate r),
   liftGuardrail (fun r _ => DuplicateDetectionGuardrail.validate r),
   liftGuardrail FileNameValidationGuardrail.validate,
   liftGuardrail (fun r _ => SeverityValidationGuardrail.validate r),
   liftGuardrail (fun r _ => MaxFindingsGuardrail.validate max_findings r)]

/-- Embedding of `GuardrailOrchestrator.apply` with the built-in validator sequence. -/
def GuardrailOrchestrator.apply (max_findings : ℕ) (r : ReviewResponse)
    (ctx : GuardrailContext) : ReviewResponse :=
  GuardrailOrchestrator.applyList (builtinGuardrails max_findings) r ctx

/-! ## Rate limiter (`check_rate_limit` in `app/api.py`)

Timestamps are `time.time()` clock readings, modelled as `ℚ`.  The
state is the timestamp list stored under one key of
`request_timestamps` (an absent key behaves as the empty list). -/

/-- One admit-check for one key: prune entries not strictly newer than
`now - 60`, reject when the retained count reaches the limit (leaving
the pruned list stored), otherwise append `now` and accept. -/
def check_rate_limit (limit : ℕ) (now : ℚ) (st : List ℚ) : Bool × List ℚ :=
  if limit ≤ (st.filter (fun ts => decide (now - 60 < ts))).length then
    (false, st.filter (fun ts => decide (now - 60 < ts)))
  else (true, st.filter (fun ts => decide (now - 60 < ts)) ++ [now])

/-- A sequence of admit-checks for one key at the given times. -/
def runCalls (limit : ℕ) : List ℚ → List ℚ → List Bool × List ℚ
  | [], st => ([], st)
  | t :: ts, st =>
    ((check_rate_limit limit t st).1 ::
        (runCalls limit ts (check_rate_limit limit t st).2).1,
      (runCalls limit ts (check_rate_limit limit t st).2).2)

/-! ## Result parser (`CodeReviewCrew._parse_crew_output`)

`json.loads` is a library collaborator; it is passed in as a function
`String → Option Json` (`none` models a raised `JSONDecodeError`). -/

/-- JSON values as produced by `json.loads`. -/
inductive Json
  | null
  | bool (b : Bool)
  | num (q : ℚ)
  | str (s : String)
  | arr (elems : List Json)
  | obj (entries : List (String × Json))

/-- Whether a parsed value is a dict (`isinstance(data, dict)`). -/
def Json.isObj : Json → Bool
  | .obj _ => true
  | _ => false

/-- Key membership in a parsed object (`"findings" not in data`). -/
def jsonHasKey (kvs : List (String × Json)) (k : String) : Bool :=
  kvs.any (fun kv => decide (kv.1 = k))

/-- The fence-stripping step of `_parse_crew_output`: content after the
first occurrence of a fence marker, up to the next triple backtick,
stripped; or the raw text verbatim when no fence marker occurs. -/
def extractJsonStr (raw : String) : String :=
  if pyContains raw "```json" then
    pyStrip ((((raw.splitOn "```json").getD 1 "").splitOn "```").getD 0 "")
  else if pyContains raw "```" then
    pyStrip ((((raw.splitOn "```").getD 1 "").splitOn "```").getD 0 "")
  else raw

/-- The fixed fallback dict of `_parse_crew_output`. -/
def parseFallback : List (String × Json) :=
  [("summary", Json.str "Review completed but output parsing failed"),
   ("score", Json.num 7),
   ("findings", Json.arr [])]

/-- Embedding of `CodeReviewCrew._parse_crew_output` from `app/crew/crew.py`:
extract the fenced text, parse it, require a dict, backfill the three
defaulted keys; any failure yields the fixed fallback dict. -/
def CodeReviewCrew.parse_crew_output (jsonLoads : String → Option Json) (raw : String) :
    List (String × Json) :=
  match jsonLoads (extractJsonStr raw) with
  | some (Json.obj kvs) =>
    let kvs1 := if jsonHasKey kvs "findings" then kvs else kvs ++ [("findings", Json.arr [])]
    let kvs2 :=
      if jsonHasKey kvs1 "summary" then kvs1
      else kvs1 ++ [("summary", Json.str "Code review completed")]
    if jsonHasKey kvs2 "score" then kvs2 else kvs2 ++ [("score", Json.num 8)]
  | _ => parseFallback

/-! ## Review coordinator (`CodeReviewCrew.review_code` and the
`/review` handler in `app/api.py`)

The whole `try` body of `review_code` (crew kickoff, parsing, response
assembly) is a single fallible unit: it either produces a well-formed
`ReviewResponse` or raises with some message.  The transport layer
additionally distinguishes the deadline expiring
(`asyncio.TimeoutError`) from a normal completion of `review_code`. -/

/-- The fallback response fabricated by the `except` branch of
`review_code`: score 5.0, no findings, summary embedding the error. -/
def fallbackReviewResponse (errMsg : String) (elapsed_ms : Int) (model : String) :
    ReviewResponse :=
  { summary := "Review failed: " ++ errMsg
    score := 5
    findings := []
    metadata :=
      { execution_time_ms := elapsed_ms
        tokens_used := 0
        agent_count := 5
        guardrails_applied := []
        model := model } }

/-- Embedding of `CodeReviewCrew.review_code`: return the assembled response, or the
fallback when the `try` body raised. -/
def CodeReviewCrew.review_code (attempt : Except String ReviewResponse)
    (elapsed_ms : Int) (model : String) : ReviewResponse :=
  match attempt with
  | .ok r => r
  | .error e => fallbackReviewResponse e elapsed_ms model

/-- What the gateway observes of one review execution: either the
deadline elapsed first, or `review_code` ran to completion (with its
`try` body either succeeding or raising). -/
inductive GatewayOutcome
  | timeout
  | completed (attempt : Except String ReviewResponse)

/-- The `/review` handler after admission (`app/api.py`): a timeout
becomes an HTTP 504 error; otherwise the crew result (fallback
included) goes through the guardrail orchestrator and is returned. -/
def apiReview (timeoutSecs : ℕ) (max_findings : ℕ) (ctx : GuardrailContext)
    (elapsed_ms : Int) (model : String) (g : GatewayOutcome) :
    Except (ℕ × String) ReviewResponse :=
  match g with
  | .timeout =>
    .error (504, "Review timed out after " ++ toString timeoutSecs ++ " seconds")
  | .completed attempt =>
    .ok (GuardrailOrchestrator.apply max_findings
      (CodeReviewCrew.review_code attempt elapsed_ms model) ctx)

/-! ## Frame of a guardrail step: everything but findings and provenance -/

/-- The fields of a response that no validator may change: summary,
score, and the coordinator-owned metadata fields. -/
def FrameOK (r r' : ReviewResponse) : Prop :=
  r'.summary = r.summary ∧ r'.score = r.score ∧
    r'.metadata.execution_time_ms = r.metadata.execution_time_ms ∧
    r'.metadata.tokens_used = r.metadata.tokens_used ∧
    r'.metadata.agent_count = r.metadata.agent_count ∧
    r'.metadata.model = r.metadata.model

/-! ## Concrete sample data for witnesses -/

/-- A metadata record used by the concrete witnesses. -/
def sampleMetadata : ReviewMetadata :=
  { execution_time_ms := 100
    tokens_used := 42
    agent_count := 5
    guardrails_applied := []
    model := "gpt-4o-mini" }

/-- A well-formed security finding kept by every filter guardrail. -/
def sampleFinding : ReviewFinding :=
  { category := FindingCategory.security
    severity := FindingSeverity.low
    file := "auth.py"
    line := some 3
    message := "SQL injection risk in login"
    suggestion := "Use parameterized queries here" }

/-- A finding whose message is shorter than 10 characters. -/
def shortFinding : ReviewFinding :=
  { category := FindingCategory.style
    severity := FindingSeverity.low
    file := "auth.py"
    line := none
    message := "too short"
    suggestion := "fix style" }

/-- A response holding one long-message and one short-message finding. -/
def c1Response : ReviewResponse :=
  { summary := "ok"
    score := 6
    findings := [sampleFinding, shortFinding]
    metadata := sampleMetadata }

/-- Dedup as the specification words it: keep exactly the first finding
per distinct fingerprint, preserving order.  `dedupGo [] l` is proved
equal to this. -/
def keepFirstByFp : List ReviewFinding → List ReviewFinding
  | [] => []
  | f :: rest =>
    f :: keepFirstByFp (rest.filter (fun g => decide (fingerprintOf g ≠ fingerprintOf f)))
termination_by l => l.length
decreasing_by
  exact Nat.lt_succ_of_le (List.length_filter_le _ _)

/-- A response holding the same finding twice, for the C6 witness. -/
def c6Response : ReviewResponse :=
  { summary := "ok"
    score := 6
    findings := [sampleFinding, sampleFinding]
    metadata := sampleMetadata }

/-- The descending-order relation realised by
`sorted(..., key=..., reverse=True)`: an earlier element's key is not
strictly below a later element's key. -/
def findingGe (a b : ReviewFinding) : Prop :=
  ¬ keyLt (maxFindingsKey a) (maxFindingsKey b)

/-- A guardrail context with an empty diff, for the witnesses. -/
def sampleCtx : GuardrailContext :=
  { diff := ""
    language := "python" }

/-- An injected validator that first empties the findings in place and
then raises: the orchestrator keeps the mutated object. -/
def failingDropValidator : GuardrailFn :=
  fun r _ => .exc { r with findings := [] }

/-- An injected validator that raises without mutating the response. -/
def nonMutatingFailValidator : GuardrailFn :=
  fun r _ => .exc r

/-- A small git diff used by the C10 witness. -/
def sampleDiff : String :=
  "diff --git a/auth.py b/auth.py\n--- a/auth.py\n+++ b/auth.py\n+++ b/util.py"

/-! ## Generic helper lemmas -/

theorem filter_length_lt_iff_ne {α : Type} (p : α → Bool) (l : List α) :
    (l.filter p).length < l.length ↔ l.filter p ≠ l := by
  constructor
  · intro h he
    rw [he] at h
    exact lt_irrefl _ h
  · intro hne
    rcases Nat.lt_or_ge (l.filter p).length l.length with h | h
    · exact h
    · exact absurd
        (List.Sublist.eq_of_length (List.filter_sublist l)
          (Nat.le_antisymm (List.Sublist.length_le (List.filter_sublist l)) h)) hne

theorem sub_pos_iff_filter_ne {α : Type} (p : α → Bool) (l : List α) :
    0 < l.length - (l.filter p).length ↔ l.filter p ≠ l := by
  rw [Nat.sub_pos_iff_lt]
  exact filter_length_lt_iff_ne p l

theorem append_singleton_ne_self {α : Type} (l : List α) (a : α) :
    l ++ [a] ≠ l := by
  intro h
  have := congrArg List.length h
  simp at this

/-! ## Frame lemmas for guardrail steps -/

theorem FrameOK.refl (r : ReviewResponse) : FrameOK r r := by
  exact ⟨rfl, rfl, rfl, rfl, rfl, rfl⟩

theorem FrameOK.trans {r1 r2 r3 : ReviewResponse} (h12 : FrameOK r1 r2)
    (h23 : FrameOK r2 r3) : FrameOK r1 r3 := by
  obtain ⟨a, b, c, d, e, f⟩ := h12
  obtain ⟨a', b', c', d', e', f'⟩ := h23
  exact ⟨a'.trans a, b'.trans b, c'.trans c, d'.trans d, e'.trans e, f'.trans f⟩

@[simp] theorem recordGuardrail_findings (r : ReviewResponse) (n : String) :
    (r.recordGuardrail n).findings = r.findings := rfl

@[simp] theorem recordGuardrail_summary (r : ReviewResponse) (n : String) :
    (r.recordGuardrail n).summary = r.summary := rfl

@[simp] theorem recordGuardrail_score (r : ReviewResponse) (n : String) :
    (r.recordGuardrail n).score = r.score := rfl

@[simp] theorem recordGuardrail_applied (r : ReviewResponse) (n : String) :
    (r.recordGuardrail n).metadata.guardrails_applied =
      r.metadata.guardrails_applied ++ [n] := rfl

theorem recordGuardrail_frame (r : ReviewResponse) (n : String) :
    FrameOK r (r.recordGuardrail n) := by
  exact ⟨rfl, rfl, rfl, rfl, rfl, rfl⟩

theorem withFindings_frame (r : ReviewResponse) (l : List ReviewFinding) :
    FrameOK r { r with findings := l } := by
  exact ⟨rfl, rfl, rfl, rfl, rfl, rfl⟩

/-! ## Step lemma for `EmptyMessageGuardrail.validate` -/

theorem emptyMessage_step (r : ReviewResponse) :
    (EmptyMessageGuardrail.validate r).findings = r.findings.filter emptyMessageKeep ∧
      FrameOK r (EmptyMessageGuardrail.validate r) ∧
      (EmptyMessageGuardrail.validate r).metadata.guardrails_applied =
        r.metadata.guardrails_applied ++
          (if (EmptyMessageGuardrail.validate r).findings = r.findings then []
           else ["empty_message"]) := by
  unfold EmptyMessageGuardrail.validate
  by_cases h : 0 < r.findings.length - (r.findings.filter emptyMessageKeep).length
  · have hne : r.findings.filter emptyMessageKeep ≠ r.findings :=
      (sub_pos_iff_filter_ne _ _).mp h
    rw [if_pos h]
    refine ⟨rfl, FrameOK.trans (withFindings_frame r _) (recordGuardrail_frame _ _), ?_⟩
    simp [hne]
  · have heq : r.findings.filter emptyMessageKeep = r.findings := by
      by_contra hne
      exact h ((sub_pos_iff_filter_ne _ _).mpr hne)
    rw [if_neg h]
    refine ⟨rfl, withFindings_frame r _, ?_⟩
    simp [heq]

/-! ## C1: EmptyMessageGuardrail -/

/-- C1: after `EmptyMessageGuardrail.validate`, every surviving finding
has trimmed message and suggestion of length at least 10; any finding
whose trimmed message or suggestion is empty or shorter than 10
characters is dropped; and the name `"empty_message"` is appended to
provenance iff at least one finding was removed.  Findings are assumed
to satisfy the pydantic construction invariant of `ReviewFinding`
(message and suggestion stored stripped and non-empty). -/
theorem emptyMessageGuardrail_spec_C1 (r : ReviewResponse)
    (hv : ∀ f ∈ r.findings, f.Valid) :
    (∀ f ∈ (EmptyMessageGuardrail.validate r).findings,
        10 ≤ (pyStrip f.message).length ∧ 10 ≤ (pyStrip f.suggestion).length) ∧
      (∀ f ∈ r.findings,
        (pyStrip f.message = "" ∨ pyStrip f.suggestion = "" ∨
            (pyStrip f.message).length < 10 ∨ (pyStrip f.suggestion).length < 10) →
        f ∉ (EmptyMessageGuardrail.validate r).findings) ∧
      ((EmptyMessageGuardrail.validate r).metadata.guardrails_applied =
          r.metadata.guardrails_applied ++ ["empty_message"] ↔
        (EmptyMessageGuardrail.validate r).findings.length < r.findings.length) ∧
      (¬ (EmptyMessageGuardrail.validate r).findings.length < r.findings.length →
        (EmptyMessageGuardrail.validate r).metadata.guardrails_applied =
          r.metadata.guardrails_applied) := by
  obtain ⟨hf, -, hgapp⟩ := emptyMessage_step r
  have hkeep_iff : ∀ f : ReviewFinding, emptyMessageKeep f = true ↔
      (pyStrip f.message ≠ "" ∧ pyStrip f.suggestion ≠ "" ∧
        10 < f.message.length ∧ 10 < f.suggestion.length) := by
    intro f
    simp [emptyMessageKeep]
  refine ⟨?_, ?_, ?_, ?_⟩
  · intro f hmem
    rw [hf] at hmem
    obtain ⟨hin, hk⟩ := List.mem_filter.mp hmem
    obtain ⟨hm, -, hsug, -⟩ := hv f hin
    obtain ⟨-, -, hml, hsl⟩ := (hkeep_iff f).mp hk
    rw [hm, hsug]
    exact ⟨Nat.le_of_lt hml, Nat.le_of_lt hsl⟩
  · intro f hin hbad hmem
    rw [hf] at hmem
    obtain ⟨-, hk⟩ := List.mem_filter.mp hmem
    obtain ⟨hm, -, hsug, -⟩ := hv f hin
    obtain ⟨hne1, hne2, hml, hsl⟩ := (hkeep_iff f).mp hk
    rcases hbad with hb | hb | hb | hb
    · exact hne1 hb
    · exact hne2 hb
    · rw [hm] at hb
      omega
    · rw [hsug] at hb
      omega
  · by_cases hc : (EmptyMessageGuardrail.validate r).findings = r.findings
    · rw [hgapp, if_pos hc, List.append_nil, hc]
      constructor
      · intro habs
        exact absurd habs.symm (append_singleton_ne_self _ _)
      · intro habs
        exact absurd habs (lt_irrefl _)
    · rw [hgapp, if_neg hc]
      constructor
      · intro _
        rw [hf]
        rw [hf] at hc
        exact (filter_length_lt_iff_ne _ _).mpr hc
      · intro _
        rfl
  · intro hnl
    by_cases hc : (EmptyMessageGuardrail.validate r).findings = r.findings
    · rw [hgapp, if_pos hc, List.append_nil]
    · exfalso
      rw [hf] at hc
      rw [hf] at hnl
      exact hnl ((filter_length_lt_iff_ne _ _).mpr hc)


/-- Witness for C1 at a concrete response: the short finding is removed,
so `"empty_message"` is recorded. -/
theorem emptyMessageGuardrail_spec_C1_witness :
    (EmptyMessageGuardrail.validate c1Response).metadata.guardrails_applied =
      c1Response.metadata.guardrails_applied ++ ["empty_message"] :=
  ((emptyMessageGuardrail_spec_C1 c1Response (by decide)).2.2.1).mpr (by decide)

/-! ## C6: DuplicateDetectionGuardrail -/

theorem sub_pos_iff_sublist_ne {α : Type} {l' l : List α} (hs : l'.Sublist l) :
    0 < l.length - l'.length ↔ l' ≠ l := by
  rw [Nat.sub_pos_iff_lt]
  constructor
  · intro h he
    subst he
    exact lt_irrefl _ h
  · intro hne
    rcases Nat.lt_or_ge l'.length l.length with h | h
    · exact h
    · exact absurd (hs.eq_of_length (Nat.le_antisymm hs.length_le h)) hne

theorem dedupGo_sublist (l : List ReviewFinding) :
    ∀ seen, (dedupGo seen l).Sublist l := by
  induction l with
  | nil =>
    intro seen
    simp [dedupGo]
  | cons f rest ih =>
    intro seen
    rw [dedupGo]
    by_cases hm : fingerprintOf f ∈ seen
    · rw [if_pos hm]
      exact (ih seen).cons f
    · rw [if_neg hm]
      exact (ih _).cons₂ f

theorem dedupGo_eq_keepFirst (l : List ReviewFinding) :
    ∀ seen, dedupGo seen l =
      keepFirstByFp (l.filter (fun f => decide (fingerprintOf f ∉ seen))) := by
  induction l with
  | nil =>
    intro seen
    simp [dedupGo, keepFirstByFp]
  | cons f rest ih =>
    intro seen
    by_cases hm : fingerprintOf f ∈ seen
    · have hd : decide (fingerprintOf f ∉ seen) = false := by simp [hm]
      rw [dedupGo, if_pos hm, List.filter_cons, hd]
      simp only [Bool.false_eq_true, if_false]
      exact ih seen
    · have hd : decide (fingerprintOf f ∉ seen) = true := by simp [hm]
      rw [dedupGo, if_neg hm, List.filter_cons, hd]
      simp only [if_true]
      rw [keepFirstByFp]
      congr 1
      rw [ih (fingerprintOf f :: seen), List.filter_filter]
      congr 1
      apply List.filter_congr
      intro g _
      by_cases h1 : fingerprintOf g = fingerprintOf f
      · simp [h1]
      · by_cases h2 : fingerprintOf g ∈ seen
        · simp [h1, h2]
        · simp [h1, h2]

theorem dedupGo_fresh_pairwise (l : List ReviewFinding) :
    ∀ seen, (∀ f ∈ dedupGo seen l, fingerprintOf f ∉ seen) ∧
      (dedupGo seen l).Pairwise (fun a b => fingerprintOf a ≠ fingerprintOf b) := by
  induction l with
  | nil =>
    intro seen
    simp [dedupGo]
  | cons f rest ih =>
    intro seen
    by_cases hm : fingerprintOf f ∈ seen
    · rw [dedupGo, if_pos hm]
      exact ih seen
    · rw [dedupGo, if_neg hm]
      obtain ⟨hfresh, hpw⟩ := ih (fingerprintOf f :: seen)
      constructor
      · intro g hg
        rcases List.mem_cons.mp hg with rfl | hg'
        · exact hm
        · intro hgs
          exact hfresh g hg' (List.mem_cons_of_mem _ hgs)
      · refine List.Pairwise.cons ?_ hpw
        intro g hg heq
        exact hfresh g hg (heq ▸ List.mem_cons_self _ _)

theorem duplicate_step (r : ReviewResponse) :
    (DuplicateDetectionGuardrail.validate r).findings = dedupGo [] r.findings ∧
      FrameOK r (DuplicateDetectionGuardrail.validate r) ∧
      (DuplicateDetectionGuardrail.validate r).metadata.guardrails_applied =
        r.metadata.guardrails_applied ++
          (if (DuplicateDetectionGuardrail.validate r).findings = r.findings then []
           else ["duplicate_detection"]) := by
  have hsub := dedupGo_sublist r.findings []
  unfold DuplicateDetectionGuardrail.validate
  by_cases h : 0 < r.findings.length - (dedupGo [] r.findings).length
  · have hne : dedupGo [] r.findings ≠ r.findings := (sub_pos_iff_sublist_ne hsub).mp h
    rw [if_pos h]
    refine ⟨rfl, FrameOK.trans (withFindings_frame r _) (recordGuardrail_frame _ _), ?_⟩
    simp [hne]
  · have heq : dedupGo [] r.findings = r.findings := by
      by_contra hne
      exact h ((sub_pos_iff_sublist_ne hsub).mpr hne)
    rw [if_neg h]
    exact ⟨heq.symm, FrameOK.refl r, by simp⟩

/-- C6: after `DuplicateDetectionGuardrail.validate` the surviving
findings are exactly the first finding per distinct fingerprint
(file, line, category, lowercased-trimmed first 50 characters of the
message), in their original relative order, so no two survivors share a
fingerprint; and `"duplicate_detection"` is appended to provenance iff
at least one finding was removed. -/
theorem duplicateGuardrail_spec_C6 (r : ReviewResponse) :
    (DuplicateDetectionGuardrail.validate r).findings = keepFirstByFp r.findings ∧
      (DuplicateDetectionGuardrail.validate r).findings.Sublist r.findings ∧
      (DuplicateDetectionGuardrail.validate r).findings.Pairwise
        (fun a b => fingerprintOf a ≠ fingerprintOf b) ∧
      ((DuplicateDetectionGuardrail.validate r).metadata.guardrails_applied =
          r.metadata.guardrails_applied ++ ["duplicate_detection"] ↔
        (DuplicateDetectionGuardrail.validate r).findings.length < r.findings.length) ∧
      (¬ (DuplicateDetectionGuardrail.validate r).findings.length < r.findings.length →
        (DuplicateDetectionGuardrail.validate r).metadata.guardrails_applied =
          r.metadata.guardrails_applied) := by
  obtain ⟨hf, -, hgapp⟩ := duplicate_step r
  have hkf : dedupGo [] r.findings = keepFirstByFp r.findings := by
    rw [dedupGo_eq_keepFirst r.findings []]
    congr 1
    rw [List.filter_eq_self.mpr]
    intro a _
    simp
  have hsub : (DuplicateDetectionGuardrail.validate r).findings.Sublist r.findings := by
    rw [hf]
    exact dedupGo_sublist r.findings []
  refine ⟨hf.trans hkf, hsub, ?_, ?_, ?_⟩
  · rw [hf]
    exact (dedupGo_fresh_pairwise r.findings []).2
  · by_cases hc : (DuplicateDetectionGuardrail.validate r).findings = r.findings
    · rw [hgapp, if_pos hc, List.append_nil, hc]
      constructor
      · intro habs
        exact absurd habs.symm (append_singleton_ne_self _ _)
      · intro habs
        exact absurd habs (lt_irrefl _)
    · rw [hgapp, if_neg hc]
      refine ⟨fun _ => ?_, fun _ => rfl⟩
      have := (sub_pos_iff_sublist_ne hsub).mpr hc
      omega
  · intro hnl
    by_cases hc : (DuplicateDetectionGuardrail.validate r).findings = r.findings
    · rw [hgapp, if_pos hc, List.append_nil]
    · exfalso
      have := (sub_pos_iff_sublist_ne hsub).mpr hc
      omega

/-- Witness for C6 at a concrete response with a duplicated finding:
`"duplicate_detection"` is recorded. -/
theorem duplicateGuardrail_spec_C6_witness :
    (DuplicateDetectionGuardrail.validate c6Response).metadata.guardrails_applied =
      c6Response.metadata.guardrails_applied ++ ["duplicate_detection"] :=
  ((duplicateGuardrail_spec_C6 c6Response).2.2.2.1).mpr (by decide)

/-! ## C3: MaxFindingsGuardrail -/

theorem keyLt_trans {a b c : ℕ × String} (h1 : keyLt a b) (h2 : keyLt b c) : keyLt a c := by
  rcases h1 with h1 | ⟨e1, s1⟩
  · rcases h2 with h2 | ⟨e2, s2⟩
    · exact Or.inl (lt_trans h1 h2)
    · exact Or.inl (e2 ▸ h1)
  · rcases h2 with h2 | ⟨e2, s2⟩
    · exact Or.inl (e1 ▸ h2)
    · exact Or.inr ⟨e1.trans e2, lt_trans s1 s2⟩

theorem keyLt_asymm {a b : ℕ × String} (h : keyLt a b) : ¬ keyLt b a := by
  intro h'
  rcases h with h | ⟨e, s⟩
  · rcases h' with h' | ⟨e', s'⟩
    · exact absurd h (lt_asymm h')
    · omega
  · rcases h' with h' | ⟨e', s'⟩
    · omega
    · exact absurd s (lt_asymm s')

theorem mem_insertDesc {w x : ReviewFinding} (l : List ReviewFinding) :
    w ∈ insertDesc x l ↔ w = x ∨ w ∈ l := by
  induction l with
  | nil => simp [insertDesc]
  | cons y ys ih =>
    rw [insertDesc]
    by_cases hc : keyLt (maxFindingsKey y) (maxFindingsKey x)
    · rw [if_pos hc]
      simp
    · rw [if_neg hc]
      simp [ih]
      tauto

theorem perm_insertDesc (x : ReviewFinding) (l : List ReviewFinding) :
    (insertDesc x l).Perm (x :: l) := by
  induction l with
  | nil => exact List.Perm.refl _
  | cons y ys ih =>
    rw [insertDesc]
    by_cases hc : keyLt (maxFindingsKey y) (maxFindingsKey x)
    · rw [if_pos hc]
    · rw [if_neg hc]
      exact (ih.cons y).trans (List.Perm.swap x y ys)

theorem pairwise_insertDesc (x : ReviewFinding) (l : List ReviewFinding)
    (hl : l.Pairwise findingGe) : (insertDesc x l).Pairwise findingGe := by
  induction l with
  | nil => simp [insertDesc, List.Pairwise.cons]
  | cons y ys ih =>
    rw [insertDesc]
    by_cases hc : keyLt (maxFindingsKey y) (maxFindingsKey x)
    · rw [if_pos hc]
      refine List.Pairwise.cons ?_ hl
      intro z hz
      rcases List.mem_cons.mp hz with rfl | hz'
      · exact keyLt_asymm hc
      · intro hxz
        have hyz : findingGe y z := (List.pairwise_cons.mp hl).1 z hz'
        exact hyz (keyLt_trans hc hxz)
    · rw [if_neg hc]
      obtain ⟨hy, hys⟩ := List.pairwise_cons.mp hl
      refine List.Pairwise.cons ?_ (ih hys)
      intro z hz
      rcases (mem_insertDesc ys).mp hz with rfl | hz'
      · exact hc
      · exact hy z hz'

theorem sortDescFindings_perm (l : List ReviewFinding) :
    (sortDescFindings l).Perm l := by
  have key : ∀ (l acc : List ReviewFinding),
      (l.foldl (fun acc x => insertDesc x acc) acc).Perm (acc ++ l) := by
    intro l
    induction l with
    | nil => intro acc; simp
    | cons x rest ih =>
      intro acc
      have h1 := ih (insertDesc x acc)
      have h2 : (insertDesc x acc ++ rest).Perm (acc ++ x :: rest) :=
        ((perm_insertDesc x acc).append_right rest).trans List.perm_middle.symm
      rw [List.foldl_cons]
      exact h1.trans h2
  simpa using key l []

theorem sortDescFindings_pairwise (l : List ReviewFinding) :
    (sortDescFindings l).Pairwise findingGe := by
  have key : ∀ (l acc : List ReviewFinding), acc.Pairwise findingGe →
      (l.foldl (fun acc x => insertDesc x acc) acc).Pairwise findingGe := by
    intro l
    induction l with
    | nil => intro acc h; simpa using h
    | cons x rest ih =>
      intro acc h
      exact ih (insertDesc x acc) (pairwise_insertDesc x acc h)
  exact key l [] List.Pairwise.nil

theorem findingGe_rank_le {a b : ReviewFinding} (h : findingGe a b) :
    severityRank b.severity ≤ severityRank a.severity := by
  unfold findingGe keyLt at h
  push_neg at h
  exact h.1

/-- C3: after `MaxFindingsGuardrail.validate` the number of findings is
at most the configured maximum; within the maximum the response is
unchanged (nothing recorded); above it the kept findings are a
severity-maximal subset of the input — no dropped finding has a
strictly higher severity rank (low:0 < medium:1 < high:2 < critical:3)
than any kept finding — and `"max_findings"` is recorded. -/
theorem maxFindingsGuardrail_spec_C3 (max_findings : ℕ) (r : ReviewResponse) :
    (MaxFindingsGuardrail.validate max_findings r).findings.length ≤ max_findings ∧
      (r.findings.length ≤ max_findings →
        MaxFindingsGuardrail.validate max_findings r = r) ∧
      (max_findings < r.findings.length →
        ∃ dropped,
          r.findings.Perm
            ((MaxFindingsGuardrail.validate max_findings r).findings ++ dropped) ∧
          (∀ f ∈ (MaxFindingsGuardrail.validate max_findings r).findings,
            ∀ g ∈ dropped, severityRank g.severity ≤ severityRank f.severity) ∧
          (MaxFindingsGuardrail.validate max_findings r).metadata.guardrails_applied =
            r.metadata.guardrails_applied ++ ["max_findings"]) := by
  unfold MaxFindingsGuardrail.validate
  by_cases h : r.findings.length ≤ max_findings
  · rw [if_pos h]
    refine ⟨h, fun _ => rfl, fun h' => absurd h' (not_lt_of_le h)⟩
  · rw [if_neg h]
    have hlen : ((sortDescFindings r.findings).take max_findings).length ≤ max_findings := by
      rw [List.length_take]
      exact min_le_left _ _
    refine ⟨hlen, fun h' => absurd h' h, fun _ => ?_⟩
    refine ⟨(sortDescFindings r.findings).drop max_findings, ?_, ?_, ?_⟩
    · calc r.findings.Perm (sortDescFindings r.findings) := (sortDescFindings_perm _).symm
        _ = (sortDescFindings r.findings).take max_findings ++
              (sortDescFindings r.findings).drop max_findings :=
          (List.take_append_drop _ _).symm
    · intro f hf g hg
      have hpw := sortDescFindings_pairwise r.findings
      rw [← List.take_append_drop max_findings (sortDescFindings r.findings)] at hpw
      have := (List.pairwise_append.mp hpw).2.2 f hf g hg
      exact findingGe_rank_le this
    · simp

/-- Witness for C3 with maximum 1 on a two-finding response:
truncation occurs and `"max_findings"` is recorded. -/
theorem maxFindingsGuardrail_spec_C3_witness :
    (MaxFindingsGuardrail.validate 1 c6Response).metadata.guardrails_applied =
      c6Response.metadata.guardrails_applied ++ ["max_findings"] := by
  obtain ⟨d, -, -, hp⟩ := (maxFindingsGuardrail_spec_C3 1 c6Response).2.2 (by decide)
  exact hp

theorem maxFindings_step (max_findings : ℕ) (r : ReviewResponse) :
    FrameOK r (MaxFindingsGuardrail.validate max_findings r) ∧
      (MaxFindingsGuardrail.validate max_findings r).metadata.guardrails_applied =
        r.metadata.guardrails_applied ++
          (if (MaxFindingsGuardrail.validate max_findings r).findings = r.findings then []
           else ["max_findings"]) := by
  unfold MaxFindingsGuardrail.validate
  by_cases h : r.findings.length ≤ max_findings
  · rw [if_pos h]
    exact ⟨FrameOK.refl r, by simp⟩
  · rw [if_neg h]
    have hlt : ((sortDescFindings r.findings).take max_findings).length <
        r.findings.length := by
      rw [List.length_take]
      have hp := (sortDescFindings_perm r.findings).length_eq
      omega
    have hne : (sortDescFindings r.findings).take max_findings ≠ r.findings := by
      intro he
      rw [he] at hlt
      exact lt_irrefl _ hlt
    refine ⟨FrameOK.trans (withFindings_frame r _) (recordGuardrail_frame _ _), ?_⟩
    simp [hne]

/-! ## C5: SeverityValidationGuardrail -/

theorem category_value_security_iff (c : FindingCategory) :
    c.value = "security" ↔ c = FindingCategory.security := by
  cases c <;> simp [FindingCategory.value]

theorem upgradeCond_iff (f : ReviewFinding) :
    upgradeCond f = true ↔
      (f.category = FindingCategory.security ∧ f.severity = FindingSeverity.low ∧
        ∃ k ∈ serious_keywords, pyContains (pyLower f.message) k) := by
  unfold upgradeCond
  rw [Bool.and_eq_true, Bool.and_eq_true, List.any_eq_true]
  simp only [decide_eq_true_eq]
  rw [category_value_security_iff]
  tauto

theorem upgradeCond_upgradeFinding (f : ReviewFinding) :
    upgradeCond (upgradeFinding f) = false := by
  unfold upgradeFinding
  by_cases h : upgradeCond f = true
  · rw [if_pos h]
    unfold upgradeCond
    simp
  · rw [if_neg h]
    simpa using h

theorem upgradeFinding_idem (f : ReviewFinding) :
    upgradeFinding (upgradeFinding f) = upgradeFinding f := by
  have h := upgradeCond_upgradeFinding f
  conv_lhs => rw [upgradeFinding]
  rw [h]
  simp

theorem map_eq_self_forall {α : Type} {f : α → α} {l : List α}
    (h : l.map f = l) : ∀ x ∈ l, f x = x := by
  induction l with
  | nil =>
    intro x hx
    cases hx
  | cons a as ih =>
    rw [List.map_cons] at h
    injection h with h1 h2
    intro x hx
    rcases List.mem_cons.mp hx with rfl | hx'
    · exact h1
    · exact ih h2 x hx'

theorem any_upgradeCond_iff_map_ne (l : List ReviewFinding) :
    l.any upgradeCond = true ↔ l.map upgradeFinding ≠ l := by
  constructor
  · rw [List.any_eq_true]
    rintro ⟨f, hf, hc⟩ heq
    have := map_eq_self_forall heq f hf
    rw [upgradeFinding, if_pos hc] at this
    have hsev := congrArg ReviewFinding.severity this
    simp only at hsev
    have hlow : f.severity = FindingSeverity.low := ((upgradeCond_iff f).mp hc).2.1
    rw [hlow] at hsev
    cases hsev
  · intro hne
    by_contra hany
    apply hne
    have hall : ∀ x ∈ l, upgradeCond x = false := by
      intro x hx
      by_contra hx'
      exact hany (List.any_eq_true.mpr ⟨x, hx, by simpa using hx'⟩)
    have : ∀ x ∈ l, upgradeFinding x = x := by
      intro x hx
      rw [upgradeFinding, if_neg]
      simp [hall x hx]
    calc l.map upgradeFinding = l.map id := List.map_congr_left this
      _ = l := List.map_id l

theorem severity_step (r : ReviewResponse) :
    (SeverityValidationGuardrail.validate r).findings = r.findings.map upgradeFinding ∧
      FrameOK r (SeverityValidationGuardrail.validate r) ∧
      (SeverityValidationGuardrail.validate r).metadata.guardrails_applied =
        r.metadata.guardrails_applied ++
          (if (SeverityValidationGuardrail.validate r).findings = r.findings then []
           else ["severity_validation"]) := by
  unfold SeverityValidationGuardrail.validate
  by_cases h : r.findings.any upgradeCond = true
  · have hne := (any_upgradeCond_iff_map_ne _).mp h
    rw [if_pos h]
    refine ⟨rfl, FrameOK.trans (withFindings_frame r _) (recordGuardrail_frame _ _), ?_⟩
    simp [hne]
  · have heq : r.findings.map upgradeFinding = r.findings := by
      by_contra hne
      exact h ((any_upgradeCond_iff_map_ne _).mpr hne)
    rw [if_neg h]
    refine ⟨rfl, withFindings_frame r _, ?_⟩
    simp [heq]

/-- C5: `SeverityValidationGuardrail.validate` maps each finding through
`upgradeFinding`, which upgrades to medium exactly the findings with
category security, severity low, and a serious keyword in the
lowercased message; it never lowers a severity rank; and applying the
validator twice equals applying it once. -/
theorem severityGuardrail_spec_C5 (r : ReviewResponse) :
    (SeverityValidationGuardrail.validate r).findings = r.findings.map upgradeFinding ∧
      (∀ f : ReviewFinding,
        (f.category = FindingCategory.security ∧ f.severity = FindingSeverity.low ∧
            ∃ k ∈ serious_keywords, pyContains (pyLower f.message) k) →
        upgradeFinding f = { f with severity := FindingSeverity.medium }) ∧
      (∀ f : ReviewFinding,
        ¬ (f.category = FindingCategory.security ∧ f.severity = FindingSeverity.low ∧
            ∃ k ∈ serious_keywords, pyContains (pyLower f.message) k) →
        upgradeFinding f = f) ∧
      (∀ f : ReviewFinding,
        severityRank f.severity ≤ severityRank (upgradeFinding f).severity) ∧
      SeverityValidationGuardrail.validate (SeverityValidationGuardrail.validate r) =
        SeverityValidationGuardrail.validate r := by
  obtain ⟨hford, -, -⟩ := severity_step r
  refine ⟨hford, ?_, ?_, ?_, ?_⟩
  · intro f hcond
    rw [upgradeFinding, if_pos ((upgradeCond_iff f).mpr hcond)]
  · intro f hcond
    rw [upgradeFinding, if_neg]
    intro hc
    exact hcond ((upgradeCond_iff f).mp hc)
  · intro f
    rw [upgradeFinding]
    by_cases hc : upgradeCond f = true
    · rw [if_pos hc]
      have hlow : f.severity = FindingSeverity.low := ((upgradeCond_iff f).mp hc).2.1
      rw [hlow]
      show severityRank FindingSeverity.low ≤ severityRank FindingSeverity.medium
      decide
    · rw [if_neg hc]
  · have hany : (SeverityValidationGuardrail.validate r).findings.any upgradeCond = false := by
      rw [hford, List.any_map]
      apply List.any_eq_false.mpr
      intro f _
      simp [Function.comp, upgradeCond_upgradeFinding]
    conv_lhs => rw [SeverityValidationGuardrail.validate]
    rw [if_neg (by simp [hany])]
    have hmap : (SeverityValidationGuardrail.validate r).findings.map upgradeFinding =
        (SeverityValidationGuardrail.validate r).findings := by
      rw [hford, List.map_map]
      exact List.map_congr_left (fun f _ => upgradeFinding_idem f)
    rw [hmap]

/-- Witness for C5: the sample low-severity security finding mentioning
SQL injection is upgraded to medium. -/
theorem severityGuardrail_spec_C5_witness :
    upgradeFinding sampleFinding =
      { sampleFinding with severity := FindingSeverity.medium } :=
  (severityGuardrail_spec_C5 c1Response).2.1 sampleFinding (by decide)

/-! ## Step lemma for `FileNameValidationGuardrail.validate` -/

theorem fileName_step (r : ReviewResponse) (ctx : GuardrailContext) :
    FrameOK r (FileNameValidationGuardrail.validate r ctx) ∧
      (FileNameValidationGuardrail.validate r ctx).metadata.guardrails_applied =
        r.metadata.guardrails_applied ++
          (if (FileNameValidationGuardrail.validate r ctx).findings = r.findings then []
           else ["file_validation"]) := by
  unfold FileNameValidationGuardrail.validate
  by_cases he : extract_files_from_diff ctx.diff = []
  · rw [if_pos he]
    exact ⟨FrameOK.refl r, by simp⟩
  · rw [if_neg he]
    by_cases h : 0 < r.findings.length -
        (r.findings.filter (fileNameKeep (extract_files_from_diff ctx.diff))).length
    · have hne : r.findings.filter (fileNameKeep (extract_files_from_diff ctx.diff)) ≠
          r.findings := (sub_pos_iff_filter_ne _ _).mp h
      rw [if_pos h]
      refine ⟨FrameOK.trans (withFindings_frame r _) (recordGuardrail_frame _ _), ?_⟩
      simp [hne]
    · have heq : r.findings.filter (fileNameKeep (extract_files_from_diff ctx.diff)) =
          r.findings := by
        by_contra hne
        exact h ((sub_pos_iff_filter_ne _ _).mpr hne)
      rw [if_neg h]
      refine ⟨withFindings_frame r _, ?_⟩
      simp [heq]

/-! ## C9: the orchestrator's frame and provenance accumulation -/

/-- C9: one full pipeline run is the in-order composition of the five
validators; it leaves summary, score and the coordinator-owned metadata
fields unchanged; and `guardrails_applied` grows append-only, in
execution order, by exactly the name of each validator whose step
changed the findings. -/
theorem orchestrator_spec_C9 (max_findings : ℕ) (r : ReviewResponse)
    (ctx : GuardrailContext) :
    let r1 := EmptyMessageGuardrail.validate r
    let r2 := DuplicateDetectionGuardrail.validate r1
    let r3 := FileNameValidationGuardrail.validate r2 ctx
    let r4 := SeverityValidationGuardrail.validate r3
    let r5 := MaxFindingsGuardrail.validate max_findings r4
    GuardrailOrchestrator.apply max_findings r ctx = r5 ∧
      FrameOK r r5 ∧
      r5.metadata.guardrails_applied =
        r.metadata.guardrails_applied ++
          ((if r1.findings = r.findings then [] else ["empty_message"]) ++
            (if r2.findings = r1.findings then [] else ["duplicate_detection"]) ++
            (if r3.findings = r2.findings then [] else ["file_validation"]) ++
            (if r4.findings = r3.findings then [] else ["severity_validation"]) ++
            (if r5.findings = r4.findings then [] else ["max_findings"])) := by
  dsimp only
  obtain ⟨-, hfr1, hg1⟩ := emptyMessage_step r
  obtain ⟨-, hfr2, hg2⟩ := duplicate_step (EmptyMessageGuardrail.validate r)
  obtain ⟨hfr3, hg3⟩ := fileName_step
    (DuplicateDetectionGuardrail.validate (EmptyMessageGuardrail.validate r)) ctx
  obtain ⟨-, hfr4, hg4⟩ := severity_step
    (FileNameValidationGuardrail.validate
      (DuplicateDetectionGuardrail.validate (EmptyMessageGuardrail.validate r)) ctx)
  obtain ⟨hfr5, hg5⟩ := maxFindings_step max_findings
    (SeverityValidationGuardrail.validate
      (FileNameValidationGuardrail.validate
        (DuplicateDetectionGuardrail.validate (EmptyMessageGuardrail.validate r)) ctx))
  refine ⟨rfl, ?_, ?_⟩
  · exact ((((hfr1.trans hfr2).trans hfr3).trans hfr4).trans hfr5)
  · rw [hg5, hg4, hg3, hg2, hg1]
    simp [List.append_assoc]

/-- Witness for C9: on the concrete sample response the pipeline leaves
the summary untouched. -/
theorem orchestrator_spec_C9_witness :
    (GuardrailOrchestrator.apply 20 c1Response sampleCtx).summary = c1Response.summary := by
  have h := orchestrator_spec_C9 20 c1Response sampleCtx
  rw [h.1]
  exact h.2.1.1

/-! ## C2: validator failures and the pipeline -/

theorem applyList_append (xs ys : List GuardrailFn) (r : ReviewResponse)
    (ctx : GuardrailContext) :
    GuardrailOrchestrator.applyList (xs ++ ys) r ctx =
      GuardrailOrchestrator.applyList ys (GuardrailOrchestrator.applyList xs r ctx) ctx := by
  induction xs generalizing r with
  | nil => rfl
  | cons v vs ih =>
    rw [List.cons_append]
    cases hv : v r ctx with
    | ok r' =>
      rw [GuardrailOrchestrator.applyList, hv, GuardrailOrchestrator.applyList, hv]
      exact ih r'
    | exc rp =>
      rw [GuardrailOrchestrator.applyList, hv, GuardrailOrchestrator.applyList, hv]
      exact ih rp

/-- C2 counterexample: a validator that empties the findings in place
and then raises leaves the findings list emptied — the orchestrator
continues with the mutated object, so the failing validator's partial
effect is NOT discarded and the findings list is corrupted. -/
theorem pipeline_isolation_counterexample_C2 :
    (GuardrailOrchestrator.applyList [failingDropValidator] c1Response sampleCtx).findings ≠
      c1Response.findings := by
  decide

/-- C2 amended: when a validator raises, the pipeline continues with the
response object in the state the validator left it (the returned value
is discarded, in-place mutations persist), and later validators still
run; in particular a validator that raises without mutating leaves the
pipeline result exactly as if it were absent. -/
theorem pipeline_isolation_amended_C2 :
    (∀ (v : GuardrailFn) (vs : List GuardrailFn) (r rp : ReviewResponse)
        (ctx : GuardrailContext),
      v r ctx = GuardrailOutcome.exc rp →
      GuardrailOrchestrator.applyList (v :: vs) r ctx =
        GuardrailOrchestrator.applyList vs rp ctx) ∧
      (∀ (pre post : List GuardrailFn) (v : GuardrailFn) (r : ReviewResponse)
          (ctx : GuardrailContext),
        v (GuardrailOrchestrator.applyList pre r ctx) ctx =
          GuardrailOutcome.exc (GuardrailOrchestrator.applyList pre r ctx) →
        GuardrailOrchestrator.applyList (pre ++ v :: post) r ctx =
          GuardrailOrchestrator.applyList (pre ++ post) r ctx) := by
  have step : ∀ (v : GuardrailFn) (vs : List GuardrailFn) (r rp : ReviewResponse)
      (ctx : GuardrailContext),
      v r ctx = GuardrailOutcome.exc rp →
      GuardrailOrchestrator.applyList (v :: vs) r ctx =
        GuardrailOrchestrator.applyList vs rp ctx := by
    intro v vs r rp ctx h
    rw [GuardrailOrchestrator.applyList, h]
  refine ⟨step, ?_⟩
  intro pre post v r ctx h
  rw [applyList_append, applyList_append, step v post _ _ ctx h]

/-- Witness for C2 (amended): a non-mutating failing validator injected
ahead of the built-in pipeline does not change the pipeline's result. -/
theorem pipeline_isolation_amended_C2_witness :
    GuardrailOrchestrator.applyList
        ([] ++ nonMutatingFailValidator :: builtinGuardrails 20) c1Response sampleCtx =
      GuardrailOrchestrator.applyList ([] ++ builtinGuardrails 20) c1Response sampleCtx :=
  pipeline_isolation_amended_C2.2 [] (builtinGuardrails 20) nonMutatingFailValidator
    c1Response sampleCtx rfl

/-! ## C4: the rate limiter -/

theorem runCalls_append (limit : ℕ) (xs ys : List ℚ) :
    ∀ st : List ℚ,
      runCalls limit (xs ++ ys) st =
        ((runCalls limit xs st).1 ++ (runCalls limit ys (runCalls limit xs st).2).1,
          (runCalls limit ys (runCalls limit xs st).2).2) := by
  induction xs with
  | nil =>
    intro st
    simp [runCalls]
  | cons x xs ih =>
    intro st
    simp [runCalls, ih]

theorem runCalls_all_accept (limit : ℕ) (ts : List ℚ) :
    ∀ st : List ℚ,
      (∀ a ∈ st ++ ts, ∀ b ∈ st ++ ts, b - 60 < a) →
      st.length + ts.length ≤ limit →
      runCalls limit ts st = (List.replicate ts.length true, st ++ ts) := by
  induction ts with
  | nil =>
    intro st _ _
    simp [runCalls]
  | cons t rest ih =>
    intro st hw hlen
    have hkeep : st.filter (fun ts => decide (t - 60 < ts)) = st := by
      apply List.filter_eq_self.mpr
      intro a ha
      simp only [decide_eq_true_eq]
      exact hw a (List.mem_append_left _ ha) t
        (List.mem_append_right _ (List.mem_cons_self _ _))
    have hstlen : st.length < limit := by
      simp only [List.length_cons] at hlen
      omega
    have hstep : check_rate_limit limit t st = (true, st ++ [t]) := by
      unfold check_rate_limit
      rw [hkeep, if_neg (by omega)]
    have hmem : ∀ x : ℚ, x ∈ (st ++ [t]) ++ rest ↔ x ∈ st ++ t :: rest := by
      intro x
      simp [List.mem_append, List.mem_cons]
    have hw' : ∀ a ∈ (st ++ [t]) ++ rest, ∀ b ∈ (st ++ [t]) ++ rest, b - 60 < a := by
      intro a ha b hb
      exact hw a ((hmem a).mp ha) b ((hmem b).mp hb)
    have hlen' : (st ++ [t]).length + rest.length ≤ limit := by
      simp only [List.length_append, List.length_cons, List.length_nil] at hlen ⊢
      omega
    have hrec := ih (st ++ [t]) hw' hlen'
    rw [runCalls, hstep]
    dsimp only
    rw [hrec]
    simp [List.replicate_succ]

/-- C4: each admit call first prunes the key's timestamps to those
strictly newer than `now - 60`; when the retained count reaches the
configured limit it rejects without recording `now` (the stored list is
the pruned one); otherwise it records `now` and accepts.  Consequently
`N` calls in rapid succession from an empty state all accept and the
`(N+1)`-th rejects, and a call whose window has moved past every stored
timestamp is accepted again. -/
theorem rateLimiter_spec_C4 :
    (∀ (limit : ℕ) (now : ℚ) (st : List ℚ),
      limit ≤ (st.filter (fun ts => decide (now - 60 < ts))).length →
      check_rate_limit limit now st =
        (false, st.filter (fun ts => decide (now - 60 < ts)))) ∧
      (∀ (limit : ℕ) (now : ℚ) (st : List ℚ),
        (st.filter (fun ts => decide (now - 60 < ts))).length < limit →
        check_rate_limit limit now st =
          (true, st.filter (fun ts => decide (now - 60 < ts)) ++ [now])) ∧
      (∀ (limit : ℕ) (ts : List ℚ) (tN : ℚ),
        ts.length = limit →
        (∀ a ∈ ts ++ [tN], ∀ b ∈ ts ++ [tN], b - 60 < a) →
        runCalls limit (ts ++ [tN]) [] = (List.replicate limit true ++ [false], ts)) ∧
      (∀ (limit : ℕ) (now : ℚ) (st : List ℚ),
        0 < limit → (∀ t ∈ st, t ≤ now - 60) →
        check_rate_limit limit now st = (true, [now])) := by
  refine ⟨?_, ?_, ?_, ?_⟩
  · intro limit now st h
    unfold check_rate_limit
    rw [if_pos h]
  · intro limit now st h
    unfold check_rate_limit
    rw [if_neg (by omega)]
  · intro limit ts tN hlen hw
    have hwts : ∀ a ∈ ([] : List ℚ) ++ ts, ∀ b ∈ ([] : List ℚ) ++ ts, b - 60 < a := by
      intro a ha b hb
      simp only [List.nil_append] at ha hb
      exact hw a (List.mem_append_left _ ha) b (List.mem_append_left _ hb)
    have hfirst := runCalls_all_accept limit ts [] hwts
      (by simp only [List.length_nil, Nat.zero_add]; omega)
    have hkeep : ts.filter (fun x => decide (tN - 60 < x)) = ts := by
      apply List.filter_eq_self.mpr
      intro a ha
      simp only [decide_eq_true_eq]
      exact hw a (List.mem_append_left _ ha) tN
        (List.mem_append_right _ (List.mem_cons_self _ _))
    have hlast : check_rate_limit limit tN ts = (false, ts) := by
      unfold check_rate_limit
      rw [hkeep, if_pos (by omega)]
    have hone : runCalls limit [tN] ts = ([false], ts) := by
      rw [runCalls, hlast]
      dsimp only
      simp [runCalls]
    rw [runCalls_append, hfirst]
    dsimp only
    simp only [List.nil_append]
    rw [hone]
    dsimp only
    rw [hlen]
  · intro limit now st hpos hold
    have hkeep : st.filter (fun ts => decide (now - 60 < ts)) = [] := by
      rw [List.filter_eq_nil_iff]
      intro a ha
      simp only [decide_eq_true_eq, not_lt]
      exact hold a ha
    unfold check_rate_limit
    rw [hkeep, if_neg (by simp; omega)]
    simp

/-- Witness for C4: with limit 2, calls at times 0, 1, 1 from an empty
state accept twice then reject; afterwards a call at time 100 is
accepted again. -/
theorem rateLimiter_spec_C4_witness :
    runCalls 2 ([0, 1] ++ [1]) [] = (List.replicate 2 true ++ [false], [0, 1]) ∧
      check_rate_limit 2 100 [0, 1] = (true, [100]) := by
  constructor
  · apply rateLimiter_spec_C4.2.2.1 2 [0, 1] 1 rfl
    intro a ha b hb
    fin_cases ha <;> fin_cases hb <;> norm_num
  · apply rateLimiter_spec_C4.2.2.2 2 100 [0, 1] (by norm_num)
    intro t ht
    fin_cases ht <;> norm_num

/-! ## C7: the result parser -/

theorem jsonHasKey_append (a b : List (String × Json)) (k : String) :
    jsonHasKey (a ++ b) k = (jsonHasKey a k || jsonHasKey b k) :=
  List.any_append

/-- C7: `_parse_crew_output` is total by construction; when the
extracted text fails to parse (`none`) or parses to a non-object, it
returns the fixed fallback (empty findings, parse-failure summary,
score 7.0); when it parses to an object it returns that object with
each absent key backfilled — `findings` with the empty list, `summary`
with the fixed default string, `score` with 8.0 — appended in that
order, and present keys untouched. -/
theorem parser_spec_C7 (jsonLoads : String → Option Json) (raw : String) :
    (jsonLoads (extractJsonStr raw) = none →
      CodeReviewCrew.parse_crew_output jsonLoads raw = parseFallback) ∧
      (∀ j : Json, jsonLoads (extractJsonStr raw) = some j → j.isObj = false →
        CodeReviewCrew.parse_crew_output jsonLoads raw = parseFallback) ∧
      (∀ kvs : List (String × Json), jsonLoads (extractJsonStr raw) = some (Json.obj kvs) →
        CodeReviewCrew.parse_crew_output jsonLoads raw =
          kvs ++
            (if jsonHasKey kvs "findings" then [] else [("findings", Json.arr [])]) ++
            (if jsonHasKey kvs "summary" then []
             else [("summary", Json.str "Code review completed")]) ++
            (if jsonHasKey kvs "score" then [] else [("score", Json.num 8)])) ∧
      (List.lookup "summary" parseFallback =
          some (Json.str "Review completed but output parsing failed") ∧
        List.lookup "score" parseFallback = some (Json.num 7) ∧
        List.lookup "findings" parseFallback = some (Json.arr [])) := by
  refine ⟨?_, ?_, ?_, by constructor <;> [rfl; constructor <;> rfl]⟩
  · intro h
    unfold CodeReviewCrew.parse_crew_output
    rw [h]
  · intro j hj hobj
    unfold CodeReviewCrew.parse_crew_output
    rw [hj]
    cases j with
    | obj kvs => simp [Json.isObj] at hobj
    | null => rfl
    | bool b => rfl
    | num q => rfl
    | str s => rfl
    | arr es => rfl
  · intro kvs hj
    unfold CodeReviewCrew.parse_crew_output
    rw [hj]
    have hfs : jsonHasKey [(("findings" : String), Json.arr [])] "summary" = false := by
      decide
    have hfsc : jsonHasKey [(("findings" : String), Json.arr [])] "score" = false := by
      decide
    have hssc : jsonHasKey
        [(("summary" : String), Json.str "Code review completed")] "score" = false := by
      decide
    have hfssc : jsonHasKey [(("findings" : String), Json.arr []),
        (("summary" : String), Json.str "Code review completed")] "score" = false := by
      decide
    by_cases h1 : jsonHasKey kvs "findings" = true <;>
      by_cases h2 : jsonHasKey kvs "summary" = true <;>
        by_cases h3 : jsonHasKey kvs "score" = true <;>
          simp [h1, h2, h3, jsonHasKey_append, hfs, hfsc, hssc, hfssc, List.append_assoc]

/-- Witness for C7: a loader that always fails yields the fallback, and
a loader returning an object missing all three keys gets them all
backfilled. -/
theorem parser_spec_C7_witness :
    CodeReviewCrew.parse_crew_output (fun _ => none) "not json at all" = parseFallback ∧
      CodeReviewCrew.parse_crew_output (fun _ => some (Json.obj [])) "" =
        [("findings", Json.arr []), ("summary", Json.str "Code review completed"),
          ("score", Json.num 8)] := by
  constructor
  · exact (parser_spec_C7 (fun _ => none) "not json at all").1 rfl
  · have h := (parser_spec_C7 (fun _ => some (Json.obj [])) "").2.2.1 [] rfl
    rw [h]
    rfl

/-! ## C8: coordinator fallback and timeout -/

theorem emptyMessage_noop (r : ReviewResponse) (h : r.findings = []) :
    EmptyMessageGuardrail.validate r = r := by
  unfold EmptyMessageGuardrail.validate
  rw [h]
  rw [if_neg (by simp)]
  conv_lhs => rw [List.filter_nil, ← h]

theorem duplicate_noop (r : ReviewResponse) (h : r.findings = []) :
    DuplicateDetectionGuardrail.validate r = r := by
  unfold DuplicateDetectionGuardrail.validate
  rw [h]
  rw [if_neg (by simp [dedupGo])]

theorem fileName_noop (r : ReviewResponse) (ctx : GuardrailContext)
    (h : r.findings = []) : FileNameValidationGuardrail.validate r ctx = r := by
  unfold FileNameValidationGuardrail.validate
  by_cases he : extract_files_from_diff ctx.diff = []
  · rw [if_pos he]
  · rw [if_neg he, h]
    rw [if_neg (by simp)]
    conv_lhs => rw [List.filter_nil, ← h]

theorem severity_noop (r : ReviewResponse) (h : r.findings = []) :
    SeverityValidationGuardrail.validate r = r := by
  unfold SeverityValidationGuardrail.validate
  rw [h]
  rw [if_neg (by simp)]
  conv_lhs => rw [List.map_nil, ← h]

theorem maxFindings_noop (max_findings : ℕ) (r : ReviewResponse)
    (h : r.findings = []) : MaxFindingsGuardrail.validate max_findings r = r := by
  unfold MaxFindingsGuardrail.validate
  rw [h]
  rw [if_pos (by simp)]

theorem orchestrator_noop_of_empty (max_findings : ℕ) (r : ReviewResponse)
    (ctx : GuardrailContext) (h : r.findings = []) :
    GuardrailOrchestrator.apply max_findings r ctx = r := by
  have hcomp : GuardrailOrchestrator.apply max_findings r ctx =
      MaxFindingsGuardrail.validate max_findings
        (SeverityValidationGuardrail.validate
          (FileNameValidationGuardrail.validate
            (DuplicateDetectionGuardrail.validate
              (EmptyMessageGuardrail.validate r)) ctx)) := rfl
  rw [hcomp, emptyMessage_noop r h, duplicate_noop r h, fileName_noop r ctx h,
    severity_noop r h, maxFindings_noop max_findings r h]

/-- C8: when the crew's `try` body raises with message `e` (anything but
a timeout), the gateway still returns HTTP success with the fabricated
fallback response — score 5.0, empty findings, summary embedding the
error — which the guardrail pipeline passes through unchanged; when the
deadline elapses the gateway instead surfaces a distinct 504
gateway-timeout error. -/
theorem coordinator_fallback_spec_C8 (timeoutSecs max_findings : ℕ)
    (ctx : GuardrailContext) (elapsed_ms : Int) (model : String) (e : String) :
    apiReview timeoutSecs max_findings ctx elapsed_ms model
        (GatewayOutcome.completed (Except.error e)) =
      Except.ok (fallbackReviewResponse e elapsed_ms model) ∧
      (fallbackReviewResponse e elapsed_ms model).score = 5 ∧
      (fallbackReviewResponse e elapsed_ms model).findings = [] ∧
      pyContains (fallbackReviewResponse e elapsed_ms model).summary e ∧
      apiReview timeoutSecs max_findings ctx elapsed_ms model GatewayOutcome.timeout =
        Except.error
          (504, "Review timed out after " ++ toString timeoutSecs ++ " seconds") := by
  refine ⟨?_, rfl, rfl, ?_, rfl⟩
  · show Except.ok (GuardrailOrchestrator.apply max_findings
        (fallbackReviewResponse e elapsed_ms model) ctx) =
      Except.ok (fallbackReviewResponse e elapsed_ms model)
    rw [orchestrator_noop_of_empty max_findings
      (fallbackReviewResponse e elapsed_ms model) ctx rfl]
  · unfold pyContains fallbackReviewResponse
    show e.data <:+: ("Review failed: " ++ e).data
    rw [String.data_append]
    exact (List.suffix_append _ _).isInfix

/-! ## C10: `extract_files_from_diff` -/

theorem mem_insertSortedFile {x p : String} (l : List String) :
    x ∈ insertSortedFile p l ↔ x = p ∨ x ∈ l := by
  induction l with
  | nil => simp [insertSortedFile]
  | cons q qs ih =>
    rw [insertSortedFile]
    by_cases he : p = q
    · subst he
      rw [if_pos rfl]
      simp
    · rw [if_neg he]
      by_cases hlt : p < q
      · rw [if_pos hlt]
        simp
      · rw [if_neg hlt]
        simp [ih]
        tauto

theorem pairwise_insertSortedFile {p : String} (l : List String)
    (hl : l.Pairwise (· < ·)) : (insertSortedFile p l).Pairwise (· < ·) := by
  induction l with
  | nil => simp [insertSortedFile]
  | cons q qs ih =>
    rw [insertSortedFile]
    obtain ⟨hq, hqs⟩ := List.pairwise_cons.mp hl
    by_cases he : p = q
    · rw [if_pos he]
      exact hl
    · rw [if_neg he]
      by_cases hlt : p < q
      · rw [if_pos hlt]
        refine List.Pairwise.cons ?_ hl
        intro z hz
        rcases List.mem_cons.mp hz with rfl | hz'
        · exact hlt
        · exact lt_trans hlt (hq z hz')
      · rw [if_neg hlt]
        have hqp : q < p := by
          rcases lt_trichotomy p q with h | h | h
          · exact absurd h hlt
          · exact absurd h he
          · exact h
        refine List.Pairwise.cons ?_ (ih hqs)
        intro z hz
        rcases (mem_insertSortedFile qs).mp hz with rfl | hz'
        · exact hqp
        · exact hq z hz'

theorem extract_go_pairwise (lines : List String) :
    ∀ acc : List String, acc.Pairwise (· < ·) →
      (lines.foldl
        (fun acc line =>
          match captureFromLine line with
          | some p => if p = "/dev/null" then acc else insertSortedFile p acc
          | none => acc) acc).Pairwise (· < ·) := by
  induction lines with
  | nil =>
    intro acc h
    simpa using h
  | cons line rest ih =>
    intro acc h
    rw [List.foldl_cons]
    apply ih
    cases hc : captureFromLine line with
    | none => simpa using h
    | some p =>
      by_cases hp : p = "/dev/null"
      · simp only [hc, hp, if_pos rfl]
        simpa [hp] using h
      · simp only [hc]
        rw [if_neg hp]
        exact pairwise_insertSortedFile acc h

theorem extract_go_mem (lines : List String) :
    ∀ (acc : List String) (x : String),
      (x ∈ lines.foldl
        (fun acc line =>
          match captureFromLine line with
          | some p => if p = "/dev/null" then acc else insertSortedFile p acc
          | none => acc) acc) ↔
      (x ∈ acc ∨ (x ≠ "/dev/null" ∧ ∃ line ∈ lines, captureFromLine line = some x)) := by
  induction lines with
  | nil =>
    intro acc x
    simp
  | cons line rest ih =>
    intro acc x
    rw [List.foldl_cons]
    cases hc : captureFromLine line with
    | none =>
      simp only [hc]
      rw [ih acc x]
      constructor
      · rintro (h | ⟨hne, l, hl, hcl⟩)
        · exact Or.inl h
        · exact Or.inr ⟨hne, l, List.mem_cons_of_mem _ hl, hcl⟩
      · rintro (h | ⟨hne, l, hl, hcl⟩)
        · exact Or.inl h
        · rcases List.mem_cons.mp hl with rfl | hl'
          · rw [hc] at hcl
            cases hcl
          · exact Or.inr ⟨hne, l, hl', hcl⟩
    | some p =>
      by_cases hp : p = "/dev/null"
      · simp only [hc, if_pos hp]
        rw [ih acc x]
        constructor
        · rintro (h | ⟨hne, l, hl, hcl⟩)
          · exact Or.inl h
          · exact Or.inr ⟨hne, l, List.mem_cons_of_mem _ hl, hcl⟩
        · rintro (h | ⟨hne, l, hl, hcl⟩)
          · exact Or.inl h
          · rcases List.mem_cons.mp hl with rfl | hl'
            · rw [hc] at hcl
              injection hcl with he
              exact absurd (he.symm.trans hp) hne
            · exact Or.inr ⟨hne, l, hl', hcl⟩
      · simp only [hc, if_neg hp]
        rw [ih (insertSortedFile p acc) x]
        rw [mem_insertSortedFile]
        constructor
        · rintro ((rfl | h) | ⟨hne, l, hl, hcl⟩)
          · exact Or.inr ⟨hp, line, List.mem_cons_self _ _, hc⟩
          · exact Or.inl h
          · exact Or.inr ⟨hne, l, List.mem_cons_of_mem _ hl, hcl⟩
        · rintro (h | ⟨hne, l, hl, hcl⟩)
          · exact Or.inl (Or.inr h)
          · rcases List.mem_cons.mp hl with rfl | hl'
            · rw [hc] at hcl
              injection hcl with he
              exact Or.inl (Or.inl he.symm)
            · exact Or.inr ⟨hne, l, hl', hcl⟩

/-- C10: `extract_files_from_diff` returns a strictly sorted list — so
it is in ascending order with no duplicates — never containing
`"/dev/null"`, whose members are exactly the strings captured from some
line of the diff by one of the three git-diff header patterns; being a
pure function of the diff, its output (and hence the valid-file set of
`FileNameValidationGuardrail`) is determined by the diff alone. -/
theorem extract_files_spec_C10 (diff : String) :
    (extract_files_from_diff diff).Pairwise (· < ·) ∧
      "/dev/null" ∉ extract_files_from_diff diff ∧
      (∀ x : String,
        x ∈ extract_files_from_diff diff ↔
          (x ≠ "/dev/null" ∧ ∃ line ∈ pySplitlines diff, captureFromLine line = some x)) := by
  unfold extract_files_from_diff
  refine ⟨extract_go_pairwise (pySplitlines diff) [] List.Pairwise.nil, ?_, ?_⟩
  · intro habs
    have h := (extract_go_mem (pySplitlines diff) [] "/dev/null").mp habs
    simp at h
  · intro x
    rw [extract_go_mem (pySplitlines diff) [] x]
    simp

/-- Witness for C10: the sample diff yields a sorted, duplicate-free
file list and `"util.py"` is recognised from its `+++ b/` header. -/
theorem extract_files_spec_C10_witness :
    "util.py" ∈ extract_files_from_diff sampleDiff :=
  ((extract_files_spec_C10 sampleDiff).2.2 "util.py").mpr
    ⟨by decide, "+++ b/util.py", by decide, by decide⟩
